import Mathlib

/-!
Shallow embedding of the dynamic array `cxstructs::vec<T>` from
`src/src/datastructures/vec.h`, instantiated at `T = int` (modelled as `Int`).

Field names follow the source: `arr_` is the allocated block (the list's
length is the number of allocated slots), `size_` the number of live
elements, `len_` the recorded capacity field, `minlen_` the shrink
threshold.  The integer type `uint_32_cx` is `uint_fast32_t` (64-bit here);
no operation considered approaches `2^64`, so the fields are modelled as
`Nat` and wraparound is immaterial except where noted in a doc comment.

Modelling conventions, used consistently below:
- a fresh allocation `new T[n]` holds indeterminate values; the model fills
  fresh slots with `0` (no theorem below reads a fresh slot's value except
  where the source itself reads stale/indeterminate slots, which is exactly
  the behaviour being analysed);
- a read outside the allocation (undefined behaviour in the source) is
  modelled by `List.getElem?` returning `none`; a write outside the
  allocation is lost (`List.set` out of range is the identity), modelling
  that the store does not land in the buffer;
- an operation that runs into undefined behaviour whose outcome cannot be
  described — a scan running off the allocation, or `std::move` called on an
  inverted iterator range (`first > last`) — returns `none` (`Option`), the
  explicit undefined outcome.
-/

namespace cxstructs

/-- The state of a `vec<int>`: allocation contents, live count `size_`,
recorded capacity `len_`, shrink threshold `minlen_`. -/
structure Vec where
  arr_ : List Int
  size_ : Nat
  len_ : Nat
  minlen_ : Nat
deriving DecidableEq

/-- Embeds the constructor `vec(uint_32_cx n_elem = 64)`: allocates `n_elem`
slots, `size_ = 0`, `len_ = n_elem`,
`minlen_ = n_elem / 6 < 64 ? 0 : n_elem / 6`. -/
def mkVec (n_elem : Nat := 64) : Vec :=
  { arr_ := List.replicate n_elem 0
    size_ := 0
    len_ := n_elem
    minlen_ := if n_elem / 6 < 64 then 0 else n_elem / 6 }

/-- Embeds the constructor `vec(uint_32_cx n_elem, const T val)`: `n_elem`
slots all holding `val`, `size_ = len_ = n_elem`, same threshold formula. -/
def fillVec (n_elem : Nat) (val : Int) : Vec :=
  { arr_ := List.replicate n_elem val
    size_ := n_elem
    len_ := n_elem
    minlen_ := if n_elem / 6 < 64 then 0 else n_elem / 6 }

/-- Embeds the initializer-list constructor: `size_ = init_list.size()`,
`len_ = init_list.size() * 2`, but the allocation `new T[init_list.size()]`
holds only `init_list.size()` slots, and `minlen_ = 0`. -/
def initListVec (init_list : List Int) : Vec :=
  { arr_ := init_list
    size_ := init_list.length
    len_ := init_list.length * 2
    minlen_ := 0 }

/-- Embeds `vec::grow`: `len_ *= 1.5` is a double multiplication truncated
back to the unsigned integer, i.e. `len_ + len_ / 2` (exact for every value
reachable here, far below `2^52`); a new allocation of `len_` slots receives
the first `size_` elements via `std::move` (fresh tail slots indeterminate,
modelled as `0`); then `minlen_ = size_ / 6 < 64 ? 0 : size_ / 6`.  Note the
source computes the threshold from `size_`, the live count, not from the
capacity. -/
def grow (v : Vec) : Vec :=
  { arr_ := v.arr_.take v.size_ ++
      List.replicate (v.len_ + v.len_ / 2 - v.size_) 0
    size_ := v.size_
    len_ := v.len_ + v.len_ / 2
    minlen_ := if v.size_ / 6 < 64 then 0 else v.size_ / 6 }

/-- Embeds `vec::shrink`: `len_ /= 2`, a new allocation of `len_` slots
receives the first `size_` elements, and the same threshold recomputation
from `size_` as in `grow`. -/
def shrink (v : Vec) : Vec :=
  { arr_ := v.arr_.take v.size_ ++
      List.replicate (v.len_ / 2 - v.size_) 0
    size_ := v.size_
    len_ := v.len_ / 2
    minlen_ := if v.size_ / 6 < 64 then 0 else v.size_ / 6 }

/-- Embeds `vec::add`: if `size_ == len_` call `grow()`, then
`arr_[size_++] = e`.  The store is unchecked; if `size_` is not inside the
allocation the source writes out of bounds, modelled by `List.set` being the
identity there. -/
def add (v : Vec) (e : Int) : Vec :=
  let v' := if v.size_ = v.len_ then grow v else v
  { v' with arr_ := v'.arr_.set v'.size_ e, size_ := v'.size_ + 1 }

/-- Embeds `vec::at(int_32_cx index)`: negative `index` accesses
`arr_[size_ + index]` when `size_ + index >= 0` and throws
`std::out_of_range` (modelled `none`) otherwise; non-negative `index`
accesses `arr_[index]` when `index < size_` and throws otherwise. -/
def atIdx (v : Vec) (index : Int) : Option Int :=
  if index < 0 then
    if 0 ≤ (v.size_ : Int) + index then v.arr_[((v.size_ : Int) + index).toNat]?
    else none
  else if index < (v.size_ : Int) then v.arr_[index.toNat]?
  else none

/-- Embeds the forward branch of `vec::contains`:
`for (int i = 0; i < size_; i++) if (arr_[i] == val) return true`. -/
def containsFront (v : Vec) (val : Int) : Bool :=
  (v.arr_.take v.size_).any (fun x => x == val)

/-- Embeds the loop body of the backward branch of `vec::contains`, which is
`for (int i = size_ - 1; i > -1; i++)` — the index is incremented, so the
scan walks upward from `size_ - 1`.  The fuel is the number of slots left in
the allocation; once the index passes the end of the allocation the source
reads out of bounds, modelled as `none`. -/
def scanUpward (arr : List Int) (val : Int) : Nat → Nat → Option Bool
  | _, 0 => none
  | i, fuel + 1 =>
    match arr[i]? with
    | none => none
    | some x => if x = val then some true else scanUpward arr val (i + 1) fuel

/-- Embeds the backward branch of `vec::contains` (`startFront = false`).
With `size_ == 0` the loop `for (int i = size_ - 1; i > -1; i++)` starts at
`-1` and exits at once, returning `false`.  Otherwise the index starts at
`size_ - 1` and only ever increases, so the loop returns `true` on the first
slot at index `>= size_ - 1` holding `val` and otherwise runs past the end
of the allocation (undefined behaviour, modelled `none`). -/
def containsBack (v : Vec) (val : Int) : Option Bool :=
  if v.size_ = 0 then some false
  else scanUpward v.arr_ val (v.size_ - 1) (v.arr_.length - (v.size_ - 1))

/-- Embeds the scan loop of `vec::remove`:
`for (uint_32_cx i = 0; i < len_; i++) if (arr_[i] == e) ...` — note the
bound is `len_`, the capacity, not `size_`.  `fuel` is the number of indices
left to examine (called with `fuel = len_`); a read outside the allocation
never matches. -/
def findFrom (arr : List Int) (val : Int) : Nat → Nat → Option Nat
  | _, 0 => none
  | i, fuel + 1 =>
    if arr[i]? = some val then some i else findFrom arr val (i + 1) fuel

/-- Embeds `std::move(arr_ + i + 1, arr_ + size, arr_ + i)` on `int` slots,
for a valid source range, i.e. `i + 1 <= size`: every position `j` with
`i <= j` and `j + 1 < size` receives the old value of position `j + 1`; all
other positions (including `size - 1`, whose old value is left behind by the
move) are unchanged.  When `i + 1 = size` the range is empty and nothing
moves.  The inverted range `i + 1 > size` is undefined behaviour in the
source; the callers below reject it (they return `none`) instead of using
this function there. -/
def moveLeft (arr : List Int) (i size : Nat) : List Int :=
  (List.range arr.length).map fun j =>
    if i ≤ j ∧ j + 1 < size then arr.getD (j + 1) 0 else arr.getD j 0

/-- Embeds the body of `vec::remove` after the shrink check: scan
`[0, len_)` for the first slot equal to `e`; on a match at index `i`,
execute `std::move(arr_ + i + 1, arr_ + size_, arr_ + i)` and decrement
`size_`; without a match, do nothing.  When the matching slot is stale
(`i >= size_`, possible because the scan bound is the capacity) the move's
source range is inverted (`first = arr_ + i + 1 > last = arr_ + size_`),
which is undefined behaviour in the source — modelled as the explicit
undefined outcome `none`. -/
def removeBody (v : Vec) (e : Int) : Option Vec :=
  match findFrom v.arr_ e 0 v.len_ with
  | some i =>
    if i + 1 ≤ v.size_ then
      some { v with arr_ := moveLeft v.arr_ i v.size_, size_ := v.size_ - 1 }
    else none
  | none => some v

/-- Embeds `vec::remove`: `if (size_ < minlen_) shrink();` then the scan
and shift (`none` marks the undefined inverted-range outcome). -/
def remove (v : Vec) (e : Int) : Option Vec :=
  removeBody (if v.size_ < v.minlen_ then shrink v else v) e

/-- Embeds the body of `vec::removeAt` after the shrink check:
`std::move(arr_ + index + 1, arr_ + size_--, arr_ + index)` — the move uses
the old `size_` and the decrement happens after.  As in `removeBody`, an
inverted source range (`index + 1 > size_`, a contract violation of this
unchecked operation) is undefined behaviour, modelled `none`. -/
def removeAtBody (v : Vec) (index : Nat) : Option Vec :=
  if index + 1 ≤ v.size_ then
    some { v with arr_ := moveLeft v.arr_ index v.size_, size_ := v.size_ - 1 }
  else none

/-- Embeds `vec::removeAt`: `if (size_ < minlen_) shrink();` then the
shift-and-decrement. -/
def removeAt (v : Vec) (index : Nat) : Option Vec :=
  removeAtBody (if v.size_ < v.minlen_ then shrink v else v) index

/-- Embeds `vec::clear`: `minlen_ = 0; size_ = 0; len_ = 32;` and a fresh
allocation of 32 slots, discarding the old state entirely. -/
def clear (_ : Vec) : Vec :=
  { arr_ := List.replicate 32 0
    size_ := 0
    len_ := 32
    minlen_ := 0 }

/-- Embeds the loop `while (len_ - size_ < need) grow();` of
`vec::append`.  The subtraction `len_ - size_` is unsigned; the `Nat`
subtraction used here agrees with it whenever `size_ <= len_`, which the
theorems below assume.  `fuel` bounds the number of iterations; every use
supplies enough fuel for the loop to reach its exit condition (each `grow`
with `len_ >= 2` strictly increases `len_ - size_`). -/
def growUntil (need : Nat) : Nat → Vec → Vec
  | 0, v => v
  | fuel + 1, v =>
    if v.len_ - v.size_ < need then growUntil need fuel (grow v) else v

/-- Embeds `std::copy(src, src + xs.length, arr + pos)` on `int` slots:
positions `[pos, pos + xs.length)` of `arr` receive `xs` in order; writes
past the end of the allocation (undefined behaviour in the source) are
lost. -/
def writeAt (arr : List Int) (pos : Nat) (xs : List Int) : List Int :=
  (List.range arr.length).map fun j =>
    if pos ≤ j ∧ j < pos + xs.length then xs.getD (j - pos) 0 else arr.getD j 0

/-- Embeds `vec::append(vec& list, uint_32_cx endIndex, uint_32_cx
startIndex = 0)`: the bounds check `startIndex >= endIndex || endIndex >
list.size_` throws `std::out_of_range` (modelled `none`) before any
mutation, so on failure the destination is unchanged; otherwise grow until
`len_ - size_ >= endIndex - startIndex`, copy `list.arr_[startIndex,
endIndex)` to positions starting at `size_`, and add the count to
`size_`. -/
def appendRange (v : Vec) (list : Vec) (endIndex startIndex : Nat) : Option Vec :=
  if startIndex ≥ endIndex ∨ endIndex > list.size_ then none
  else
    let need := endIndex - startIndex
    let v' := growUntil need (need + 1) v
    some { v' with
      arr_ := writeAt v'.arr_ v'.size_ ((list.arr_.drop startIndex).take need)
      size_ := v'.size_ + need }

/-- Embeds `vec::operator=(const vec& o)` (the `this != &o` branch):
`size_ = o.size_; len_ = o.len_; minlen_ = o.minlen_;` and a fresh
allocation `new T[size_]` — only `o.size_` slots, although `len_` records
`o.len_` — filled by copying `o.size_` elements from `o.arr_` (slots the
source would copy from outside `o`'s allocation are modelled as `0`). -/
def copyAssign (o : Vec) : Vec :=
  { arr_ := o.arr_.take o.size_ ++ List.replicate (o.size_ - o.arr_.length) 0
    size_ := o.size_
    len_ := o.len_
    minlen_ := o.minlen_ }

/-- Well-formedness of a buffer state: the live count is at most the
recorded capacity, and the allocation holds exactly `len_` slots (true of
every state the count-based constructors and the mutating operations
produce). -/
def WF (v : Vec) : Prop :=
  v.size_ ≤ v.len_ ∧ v.arr_.length = v.len_

instance (v : Vec) : Decidable (WF v) := by
  unfold WF; infer_instance

/-! Helper lemmas about the list-surgery primitives. -/

lemma map_getD_range (arr : List Int) :
    (List.range arr.length).map (fun j => arr.getD j 0) = arr := by
  apply List.ext_getElem?
  intro i
  rw [List.getElem?_map]
  by_cases h : i < arr.length
  · simp [List.getElem?_range, h, List.getD_eq_getElem _ _ h]
  · have h1 : (List.range arr.length)[i]? = none := by
      rw [List.getElem?_eq_none_iff, List.length_range]
      omega
    have h2 : arr[i]? = none := by
      rw [List.getElem?_eq_none_iff]
      omega
    rw [h1, h2, Option.map_none']

lemma prefix_preserved (arr : List Int) (size pad i : Nat)
    (h1 : i < size) (h2 : i < arr.length) :
    (arr.take size ++ List.replicate pad 0)[i]? = arr[i]? := by
  rw [List.getElem?_append]
  simp only [List.length_take]
  rw [if_pos (by omega), List.getElem?_take, if_pos h1]

lemma moveLeft_length (arr : List Int) (i size : Nat) :
    (moveLeft arr i size).length = arr.length := by
  simp [moveLeft]

lemma moveLeft_keep (arr : List Int) (i size j : Nat)
    (hj : j < arr.length) (hc : ¬(i ≤ j ∧ j + 1 < size)) :
    (moveLeft arr i size)[j]? = arr[j]? := by
  rw [moveLeft, List.getElem?_map, List.getElem?_range hj]
  simp only [Option.map_some', if_neg hc]
  rw [List.getD_eq_getElem _ _ hj, List.getElem?_eq_getElem hj]

lemma moveLeft_shift (arr : List Int) (i size j : Nat)
    (hj1 : j + 1 < arr.length) (hci : i ≤ j) (hcs : j + 1 < size) :
    (moveLeft arr i size)[j]? = arr[j + 1]? := by
  rw [moveLeft, List.getElem?_map, List.getElem?_range (show j < arr.length by omega)]
  simp only [Option.map_some', if_pos (And.intro hci hcs)]
  rw [List.getD_eq_getElem _ _ hj1, List.getElem?_eq_getElem hj1]

lemma writeAt_length (arr xs : List Int) (pos : Nat) :
    (writeAt arr pos xs).length = arr.length := by
  simp [writeAt]

lemma writeAt_keep (arr xs : List Int) (pos j : Nat)
    (hj : j < arr.length) (hc : ¬(pos ≤ j ∧ j < pos + xs.length)) :
    (writeAt arr pos xs)[j]? = arr[j]? := by
  rw [writeAt, List.getElem?_map, List.getElem?_range hj]
  simp only [Option.map_some', if_neg hc]
  rw [List.getD_eq_getElem _ _ hj, List.getElem?_eq_getElem hj]

lemma writeAt_write (arr xs : List Int) (pos j : Nat)
    (hj : j < arr.length) (hlo : pos ≤ j) (hhi : j < pos + xs.length) :
    (writeAt arr pos xs)[j]? = xs[j - pos]? := by
  rw [writeAt, List.getElem?_map, List.getElem?_range hj]
  simp only [Option.map_some', if_pos (And.intro hlo hhi)]
  have hx : j - pos < xs.length := by omega
  rw [List.getD_eq_getElem _ _ hx, List.getElem?_eq_getElem hx]

lemma findFrom_none_iff (arr : List Int) (val : Int) :
    ∀ fuel i, (findFrom arr val i fuel = none ↔
      ∀ j, i ≤ j → j < i + fuel → arr[j]? ≠ some val) := by
  intro fuel
  induction fuel with
  | zero =>
    intro i
    constructor
    · intro _ j h1 h2
      exact absurd h2 (by omega)
    · intro _; rfl
  | succ f ih =>
    intro i
    rw [findFrom]
    by_cases h : arr[i]? = some val
    · simp only [if_pos h]
      constructor
      · intro hc; exact absurd hc (by simp)
      · intro hall; exact absurd h (hall i (Nat.le_refl i) (by omega))
    · simp only [if_neg h]
      rw [ih (i + 1)]
      constructor
      · intro hall j hij hjf
        rcases Nat.eq_or_lt_of_le hij with rfl | hlt
        · exact h
        · exact hall j hlt (by omega)
      · intro hall j hij hjf
        exact hall j (by omega) (by omega)

lemma findFrom_some (arr : List Int) (val : Int) :
    ∀ fuel i k, findFrom arr val i fuel = some k →
      arr[k]? = some val ∧ i ≤ k ∧ k < i + fuel ∧
      ∀ j, i ≤ j → j < k → arr[j]? ≠ some val := by
  intro fuel
  induction fuel with
  | zero => intro i k hc; exact absurd hc (by simp [findFrom])
  | succ f ih =>
    intro i k hc
    rw [findFrom] at hc
    by_cases h : arr[i]? = some val
    · rw [if_pos h] at hc
      obtain rfl : i = k := by injection hc
      exact ⟨h, Nat.le_refl i, by omega, fun j h1 h2 => absurd (by omega) (Nat.not_lt.mpr h1)⟩
    · rw [if_neg h] at hc
      obtain ⟨hk1, hk2, hk3, hk4⟩ := ih (i + 1) k hc
      refine ⟨hk1, by omega, by omega, ?_⟩
      intro j h1 h2
      rcases Nat.eq_or_lt_of_le h1 with rfl | hlt
      · exact h
      · exact hk4 j hlt h2

lemma grow_step (v : Vec) (hwf : WF v) :
    WF (grow v) ∧ v.len_ ≤ (grow v).len_ ∧ (grow v).size_ = v.size_ ∧
    (grow v).minlen_ = (if v.size_ / 6 < 64 then 0 else v.size_ / 6) ∧
    ∀ i, i < v.size_ → (grow v).arr_[i]? = v.arr_[i]? := by
  obtain ⟨hsl, hal⟩ := hwf
  constructor
  · constructor
    · show v.size_ ≤ v.len_ + v.len_ / 2
      omega
    · show (v.arr_.take v.size_ ++ List.replicate (v.len_ + v.len_ / 2 - v.size_) 0).length
        = v.len_ + v.len_ / 2
      rw [List.length_append, List.length_take, List.length_replicate]
      omega
  refine ⟨by show v.len_ ≤ v.len_ + v.len_ / 2; omega, rfl, rfl, ?_⟩
  intro i hi
  exact prefix_preserved v.arr_ v.size_ _ i hi (by omega)

lemma growUntil_spec (need : Nat) :
    ∀ fuel (v : Vec), WF v → 2 ≤ v.len_ → need ≤ v.len_ - v.size_ + fuel →
      WF (growUntil need fuel v) ∧ 2 ≤ (growUntil need fuel v).len_ ∧
      (growUntil need fuel v).size_ = v.size_ ∧
      need ≤ (growUntil need fuel v).len_ - (growUntil need fuel v).size_ ∧
      ∀ i, i < v.size_ → (growUntil need fuel v).arr_[i]? = v.arr_[i]? := by
  intro fuel
  induction fuel with
  | zero =>
    intro v hwf h2 hfu
    exact ⟨hwf, h2, rfl, by simpa using hfu, fun i _ => rfl⟩
  | succ f ih =>
    intro v hwf h2 hfu
    rw [growUntil]
    by_cases hcond : v.len_ - v.size_ < need
    · rw [if_pos hcond]
      obtain ⟨hgwf, hglen, hgsize, _, hgpre⟩ := grow_step v hwf
      have h2' : 2 ≤ (grow v).len_ := Nat.le_trans h2 hglen
      have hstrict : v.len_ + 1 ≤ (grow v).len_ := by
        show v.len_ + 1 ≤ v.len_ + v.len_ / 2
        omega
      have hfu' : need ≤ (grow v).len_ - (grow v).size_ + f := by
        have hs : (grow v).size_ = v.size_ := hgsize
        have hl : (grow v).len_ = v.len_ + v.len_ / 2 := rfl
        have hsl : v.size_ ≤ v.len_ := hwf.1
        omega
      obtain ⟨r1, r2, r3, r4, r5⟩ := ih (grow v) hgwf h2' hfu'
      refine ⟨r1, r2, by rw [r3, hgsize], r4, ?_⟩
      intro i hi
      rw [r5 i (by rw [hgsize]; exact hi), hgpre i hi]
    · rw [if_neg hcond]
      exact ⟨hwf, h2, rfl, by omega, fun i _ => rfl⟩

lemma add_full (v : Vec) (e : Int) (hfull : v.size_ = v.len_) :
    add v e =
      { arr_ := (grow v).arr_.set v.size_ e
        size_ := v.size_ + 1
        len_ := (grow v).len_
        minlen_ := (grow v).minlen_ } := by
  simp only [add, if_pos hfull]
  rfl

/-! Claim theorems. -/

/-- C1, counterexample: on a full buffer of capacity 1 (`vec(1)` after one
`add`), the next `add` leaves the capacity at `floor(1 * 1.5) = 1` while the
length becomes 2, so `capacity >= length` fails after the append, refuting
the claim as stated for every buffer. -/
theorem c1_cex :
    ¬ ((add (add (mkVec 1) 5) 6).size_ ≤ (add (add (mkVec 1) 5) 6).len_) := by
  decide

/-- C1, amended: for a well-formed buffer with `length == capacity` and
`capacity >= 2`, `Add` grows the capacity to `floor(old_capacity * 1.5)
= old_capacity + old_capacity / 2`, every previously live element keeps its
index and value, the new element lands at index `old_length`, and
`capacity >= length` holds afterwards. -/
theorem c1_growth (v : Vec) (e : Int) (hfull : v.size_ = v.len_)
    (hwf : WF v) (h2 : 2 ≤ v.len_) :
    (add v e).len_ = v.len_ + v.len_ / 2 ∧
    (add v e).size_ = v.size_ + 1 ∧
    (add v e).size_ ≤ (add v e).len_ ∧
    (∀ i, i < v.size_ → (add v e).arr_[i]? = v.arr_[i]?) ∧
    (add v e).arr_[v.size_]? = some e := by
  obtain ⟨hsl, hal⟩ := hwf
  have hglen : (grow v).arr_.length = v.len_ + v.len_ / 2 := by
    show (v.arr_.take v.size_ ++ List.replicate (v.len_ + v.len_ / 2 - v.size_) 0).length = _
    rw [List.length_append, List.length_take, List.length_replicate]
    omega
  rw [add_full v e hfull]
  refine ⟨rfl, rfl, ?_, ?_, ?_⟩
  · show v.size_ + 1 ≤ v.len_ + v.len_ / 2
    omega
  · intro i hi
    show ((grow v).arr_.set v.size_ e)[i]? = v.arr_[i]?
    rw [List.getElem?_set_ne (by omega)]
    exact prefix_preserved v.arr_ v.size_ _ i hi (by omega)
  · show ((grow v).arr_.set v.size_ e)[v.size_]? = some e
    exact List.getElem?_set_self (by rw [hglen]; omega)

/-- C1 witness: instantiates `c1_growth` at the full capacity-4 buffer
`fillVec 4 7` with the appended element 9. -/
theorem c1_growth_witness :
    (add (fillVec 4 7) 9).len_ = (fillVec 4 7).len_ + (fillVec 4 7).len_ / 2 ∧
    (add (fillVec 4 7) 9).size_ = (fillVec 4 7).size_ + 1 ∧
    (add (fillVec 4 7) 9).size_ ≤ (add (fillVec 4 7) 9).len_ ∧
    (∀ i, i < (fillVec 4 7).size_ →
      (add (fillVec 4 7) 9).arr_[i]? = (fillVec 4 7).arr_[i]?) ∧
    (add (fillVec 4 7) 9).arr_[(fillVec 4 7).size_]? = some 9 :=
  c1_growth (fillVec 4 7) 9 (by decide) (by decide) (by decide)

/-- C2, counterexample: `fillVec 384 7` is a full buffer with capacity 384
and threshold `384 / 6 = 64`; the growth triggered by the next `add` sets
the capacity to 576 but recomputes the threshold from the pre-growth live
count (`384 / 6 = 64`), not from the new capacity (`576 / 6 = 96`), so the
claimed invariant fails on the resulting state. -/
theorem c2_cex :
    ¬ ((add (fillVec 384 7) 9).minlen_ =
      if (add (fillVec 384 7) 9).len_ / 6 < 64 then 0
      else (add (fillVec 384 7) 9).len_ / 6) := by
  decide

/-- C2, amended: the count constructors recompute the threshold from the
element count `n` (which there equals the capacity) as `n / 6` if that is at
least 64 and 0 otherwise; the initializer-list constructor sets it to 0;
`grow` and `shrink` recompute it by the same formula applied to the current
live count `size_` — which, for the growth triggered by `Add` at
`length == capacity`, equals the OLD capacity, not the new one. -/
theorem c2_threshold (n : Nat) (val e : Int) (l : List Int) (v w : Vec)
    (hfull : w.size_ = w.len_) :
    (mkVec n).minlen_ = (if n / 6 < 64 then 0 else n / 6) ∧
    (fillVec n val).minlen_ = (if n / 6 < 64 then 0 else n / 6) ∧
    (initListVec l).minlen_ = 0 ∧
    (grow v).minlen_ = (if v.size_ / 6 < 64 then 0 else v.size_ / 6) ∧
    (shrink v).minlen_ = (if v.size_ / 6 < 64 then 0 else v.size_ / 6) ∧
    (add w e).minlen_ = (if w.len_ / 6 < 64 then 0 else w.len_ / 6) := by
  refine ⟨rfl, rfl, rfl, rfl, rfl, ?_⟩
  rw [add_full w e hfull]
  show (if w.size_ / 6 < 64 then 0 else w.size_ / 6) = _
  rw [hfull]

/-- C2 witness: instantiates `c2_threshold` at concrete inputs, with the
full buffer `fillVec 384 7` for the growth-on-append clause. -/
theorem c2_threshold_witness :
    (mkVec 384).minlen_ = (if 384 / 6 < 64 then 0 else 384 / 6) ∧
    (fillVec 384 7).minlen_ = (if 384 / 6 < 64 then 0 else 384 / 6) ∧
    (initListVec [1, 2]).minlen_ = 0 ∧
    (grow (mkVec 2)).minlen_ =
      (if (mkVec 2).size_ / 6 < 64 then 0 else (mkVec 2).size_ / 6) ∧
    (shrink (mkVec 2)).minlen_ =
      (if (mkVec 2).size_ / 6 < 64 then 0 else (mkVec 2).size_ / 6) ∧
    (add (fillVec 384 7) 9).minlen_ =
      (if (fillVec 384 7).len_ / 6 < 64 then 0 else (fillVec 384 7).len_ / 6) :=
  c2_threshold 384 7 9 [1, 2] (mkVec 2) (fillVec 384 7) (by decide)

/-- C5: the backward branch of `contains` increments its index
(`for (int i = size_ - 1; i > -1; i++)`), so it never walks toward index 0.
For the buffer `[5, 10]` in a capacity-4 allocation it misses the live `5`
at index 0 and runs off the end of the allocation (undefined behaviour,
modelled `none`) while the forward scan returns `true`; for the buffer `[5]`
the backward scan happens to see index 0 first, matching the test that the
spec echoes, but `Contains(6, fromFront=false)` runs off the allocation
instead of returning `false`. -/
theorem c5_contains_back_bug :
    containsFront (add (add (mkVec 4) 5) 10) 5 = true ∧
    containsBack (add (add (mkVec 4) 5) 10) 5 = none ∧
    containsFront (add (mkVec 4) 5) 5 = true ∧
    containsBack (add (mkVec 4) 5) 5 = some true ∧
    containsFront (add (mkVec 4) 5) 6 = false ∧
    containsBack (add (mkVec 4) 5) 6 = none := by
  decide

/-- C8: `Clear()` resets the capacity to the baseline 32, the length to 0
and the shrink threshold to 0 regardless of the previous state, and a
subsequent `Add` stores its element at index 0 with `Size() == 1`. -/
theorem c8_clear_resets (v : Vec) (e : Int) :
    (clear v).len_ = 32 ∧ (clear v).size_ = 0 ∧ (clear v).minlen_ = 0 ∧
    (add (clear v) e).size_ = 1 ∧ (add (clear v) e).arr_[0]? = some e := by
  exact ⟨rfl, rfl, rfl, rfl, rfl⟩

/-- C9: evaluation at the failing input of the claim.  On a buffer with
`capacity == 0` (here `vec(0)`), `Add` first calls `grow()`, but the new
capacity is `floor(0 * 1.5) = 0`, so the buffer does not grow: the length
becomes 1 while the capacity stays 0 (`capacity >= length` fails) and the
unchecked store `arr_[0] = e` lands outside the zero-slot allocation — the
element is lost (the model's allocation stays empty). -/
theorem c9_zero_capacity_add :
    (add (mkVec 0) 5).size_ = 1 ∧ (add (mkVec 0) 5).len_ = 0 ∧
    (add (mkVec 0) 5).arr_ = [] := by
  decide

/-- C10: copy assignment `B = A` copies the recorded capacity field
(`len_ = o.len_`) but allocates only `new T[o.size_]` slots, so the
allocation holds exactly `A.length` slots; hence the recorded capacity is
within the allocation exactly when `A.length >= A.capacity`. -/
theorem c10_copy_assign_capacity (o : Vec) :
    (copyAssign o).len_ = o.len_ ∧
    (copyAssign o).arr_.length = o.size_ ∧
    ((copyAssign o).len_ ≤ (copyAssign o).arr_.length ↔ o.len_ ≤ o.size_) := by
  have hlen : (copyAssign o).arr_.length = o.size_ := by
    show (o.arr_.take o.size_ ++ List.replicate (o.size_ - o.arr_.length) 0).length = o.size_
    rw [List.length_append, List.length_take, List.length_replicate]
    omega
  exact ⟨rfl, hlen, by rw [hlen]; exact Iff.rfl⟩

/-- The buffer `[5, 10]` built by two `add`s into a `vec(4)`; its allocation
is `[5, 10, 0, 0]` with `size_ = 2`, `len_ = 4`, `minlen_ = 0`. -/
def buf510 : Vec := add (add (mkVec 4) 5) 10

/-- The buffer `[5, 10, 15]` built by three `add`s into a `vec(4)`. -/
def vec3 : Vec := add (add (add (mkVec 4) 5) 10) 15

/-- A state whose length 100 is below its shrink threshold 128 (capacity
768, threshold `768 / 6 = 128`), as left by growth past capacity 768. -/
def shrinkState : Vec :=
  { arr_ := List.replicate 768 0
    size_ := 100
    len_ := 768
    minlen_ := 128 }

/-- C3: when `RemoveValue` or `RemoveAt` is invoked on a buffer whose length
is below its shrink threshold, the operation first shrinks — the capacity is
halved (`capacity /= 2`) with a reallocation — and then proceeds on the
shrunk state, and every live element keeps its index and value across the
shrink.  Hypothesis `hd` restricts to states where relocating the `size_`
live elements stays inside the halved allocation (true of the derived
thresholds, which are at most a sixth of a capacity); without it the
source's `std::move` would write out of bounds. -/
theorem c3_shrink_on_remove (v : Vec) (e : Int) (idx : Nat)
    (htrig : v.size_ < v.minlen_) (hwf : v.size_ ≤ v.arr_.length)
    (_hd : v.minlen_ ≤ v.len_ / 2) :
    remove v e = removeBody (shrink v) e ∧
    removeAt v idx = removeAtBody (shrink v) idx ∧
    (shrink v).len_ = v.len_ / 2 ∧
    (shrink v).size_ = v.size_ ∧
    ∀ i, i < v.size_ → (shrink v).arr_[i]? = v.arr_[i]? := by
  refine ⟨by rw [remove, if_pos htrig], by rw [removeAt, if_pos htrig], rfl, rfl, ?_⟩
  intro i hi
  exact prefix_preserved v.arr_ v.size_ _ i hi (by omega)

/-- C3 witness: instantiates `c3_shrink_on_remove` at `shrinkState`. -/
theorem c3_shrink_on_remove_witness :
    remove shrinkState 0 = removeBody (shrink shrinkState) 0 ∧
    removeAt shrinkState 0 = removeAtBody (shrink shrinkState) 0 ∧
    (shrink shrinkState).len_ = shrinkState.len_ / 2 ∧
    (shrink shrinkState).size_ = shrinkState.size_ ∧
    ∀ i, i < shrinkState.size_ →
      (shrink shrinkState).arr_[i]? = shrinkState.arr_[i]? :=
  c3_shrink_on_remove shrinkState 0 0 (by decide)
    (by norm_num [shrinkState]) (by decide)

/-- The state after a first, legitimate `remove 10` on the buffer `[5, 10]`:
live contents `[5]`, but slot 1 of the allocation still holds the stale 10
left behind by the removal (the shift's source range was empty, so nothing
overwrote it). -/
def staleBuf : Vec :=
  { arr_ := [5, 10, 0, 0]
    size_ := 1
    len_ := 4
    minlen_ := 0 }

/-- C4, counterexample: a first `remove 10` on `[5, 10]` yields `staleBuf`,
whose live contents `[5]` no longer contain 10.  The claim then demands that
a second `RemoveValue(10)` be a no-op (result `some staleBuf`), but the scan
of `remove` runs to `len_` (the capacity), matches the stale 10 at index
`1 >= size_`, and the source reaches `std::move(arr_ + 2, arr_ + 1, arr_ + 1)`
— an inverted iterator range, undefined behaviour — instead of leaving the
buffer unchanged. -/
theorem c4_cex :
    remove buf510 10 = some staleBuf ∧
    (staleBuf.arr_.take staleBuf.size_).contains 10 = false ∧
    remove staleBuf 10 = none ∧
    remove staleBuf 10 ≠ some staleBuf := by
  decide

/-- C4, amended: `RemoveValue` scans the allocation range `[0, capacity)`,
not just the live range `[0, length)`.  It is a no-op exactly when no slot
in `[0, capacity)` equals the value.  When the first matching slot `i` is
live (`i < length`) it behaves as the claim states: elements before `i` are
unchanged, elements after `i` shift left by one, the length decrements, and
slots at and beyond `length - 1` keep their old values.  But when the first
match is a stale slot (`i >= length`), the source calls `std::move` on an
inverted iterator range (`first = arr_ + i + 1 > last = arr_ + length`) —
undefined behaviour, so the claimed no-op does not happen (the model yields
the explicit undefined outcome).  (Stated for states not below the shrink
threshold, so the shrink branch is not taken.) -/
theorem c4_remove (v : Vec) (e : Int)
    (hns : ¬ v.size_ < v.minlen_) (hwf : WF v) :
    (findFrom v.arr_ e 0 v.len_ = none ↔ ∀ j, j < v.len_ → v.arr_[j]? ≠ some e) ∧
    (findFrom v.arr_ e 0 v.len_ = none → remove v e = some v) ∧
    ∀ i, findFrom v.arr_ e 0 v.len_ = some i →
      v.arr_[i]? = some e ∧
      (∀ j, j < i → v.arr_[j]? ≠ some e) ∧
      (i < v.size_ → ∃ w, remove v e = some w ∧
        w.size_ = v.size_ - 1 ∧
        (∀ j, j < i → w.arr_[j]? = v.arr_[j]?) ∧
        (∀ j, i ≤ j → j + 1 < v.size_ → w.arr_[j]? = v.arr_[j + 1]?) ∧
        (∀ j, v.size_ ≤ j + 1 → j < v.len_ → w.arr_[j]? = v.arr_[j]?)) ∧
      (v.size_ ≤ i → remove v e = none) := by
  obtain ⟨hsl, hal⟩ := hwf
  have hrem : remove v e = removeBody v e := by rw [remove, if_neg hns]
  refine ⟨?_, ?_, ?_⟩
  · rw [findFrom_none_iff v.arr_ e v.len_ 0]
    constructor
    · intro h j hj
      exact h j (Nat.zero_le j) (by omega)
    · intro h j _ hj
      exact h j (by omega)
  · intro hn
    rw [hrem, removeBody, hn]
  · intro i hfi
    obtain ⟨hv, _, hilen, hfirst⟩ := findFrom_some v.arr_ e v.len_ 0 i hfi
    refine ⟨hv, fun j hj => hfirst j (Nat.zero_le j) hj, ?_, ?_⟩
    · intro hlt
      have hrm : remove v e =
          some { v with arr_ := moveLeft v.arr_ i v.size_, size_ := v.size_ - 1 } := by
        rw [hrem, removeBody, hfi]
        exact if_pos (show i + 1 ≤ v.size_ by omega)
      refine ⟨_, hrm, rfl, ?_, ?_, ?_⟩
      · intro j hj
        show (moveLeft v.arr_ i v.size_)[j]? = v.arr_[j]?
        exact moveLeft_keep v.arr_ i v.size_ j (by omega) (by omega)
      · intro j hij hjs
        show (moveLeft v.arr_ i v.size_)[j]? = v.arr_[j + 1]?
        exact moveLeft_shift v.arr_ i v.size_ j (by omega) hij hjs
      · intro j hj1 hj2
        show (moveLeft v.arr_ i v.size_)[j]? = v.arr_[j]?
        exact moveLeft_keep v.arr_ i v.size_ j (by omega) (by omega)
    · intro hsi
      rw [hrem, removeBody, hfi]
      exact if_neg (show ¬ i + 1 ≤ v.size_ by omega)

/-- C4 witness: instantiates `c4_remove` at the buffer `[5, 10]` with the
removed value 10 (a live first match at index 1). -/
theorem c4_remove_witness :
    (findFrom buf510.arr_ 10 0 buf510.len_ = none ↔
      ∀ j, j < buf510.len_ → buf510.arr_[j]? ≠ some 10) ∧
    (findFrom buf510.arr_ 10 0 buf510.len_ = none →
      remove buf510 10 = some buf510) ∧
    ∀ i, findFrom buf510.arr_ 10 0 buf510.len_ = some i →
      buf510.arr_[i]? = some 10 ∧
      (∀ j, j < i → buf510.arr_[j]? ≠ some 10) ∧
      (i < buf510.size_ → ∃ w, remove buf510 10 = some w ∧
        w.size_ = buf510.size_ - 1 ∧
        (∀ j, j < i → w.arr_[j]? = buf510.arr_[j]?) ∧
        (∀ j, i ≤ j → j + 1 < buf510.size_ →
          w.arr_[j]? = buf510.arr_[j + 1]?) ∧
        (∀ j, buf510.size_ ≤ j + 1 → j < buf510.len_ →
          w.arr_[j]? = buf510.arr_[j]?)) ∧
      (buf510.size_ ≤ i → remove buf510 10 = none) :=
  c4_remove buf510 10 (by decide) (by decide)

/-- C6: `At(i)` with non-negative `i` returns the element at index `i` when
`i < length` and fails with out-of-range when `i >= length`; with negative
`i` it returns the element at index `length + i` when `length + i >= 0` and
fails with out-of-range when `length + i < 0`.  In particular on the buffer
`[5, 10, 15]`: `At(-1) = 15`, `At(-2) = 10`, `At(-3) = 5`, and `At(-4)`
fails. -/
theorem c6_at_checked (v : Vec) (hwf : v.size_ ≤ v.arr_.length) :
    (∀ i : Int, 0 ≤ i → i < (v.size_ : Int) →
      i.toNat < v.arr_.length ∧ atIdx v i = v.arr_[i.toNat]?) ∧
    (∀ i : Int, 0 ≤ i → (v.size_ : Int) ≤ i → atIdx v i = none) ∧
    (∀ i : Int, i < 0 → 0 ≤ (v.size_ : Int) + i →
      ((v.size_ : Int) + i).toNat < v.arr_.length ∧
      atIdx v i = v.arr_[((v.size_ : Int) + i).toNat]?) ∧
    (∀ i : Int, i < 0 → (v.size_ : Int) + i < 0 → atIdx v i = none) ∧
    atIdx vec3 (-1) = some 15 ∧ atIdx vec3 (-2) = some 10 ∧
    atIdx vec3 (-3) = some 5 ∧ atIdx vec3 (-4) = none := by
  refine ⟨?_, ?_, ?_, ?_, by decide, by decide, by decide, by decide⟩
  · intro i h0 hi
    refine ⟨by omega, ?_⟩
    rw [atIdx, if_neg (show ¬ i < 0 by omega), if_pos hi]
  · intro i h0 hi
    rw [atIdx, if_neg (show ¬ i < 0 by omega),
      if_neg (show ¬ i < (v.size_ : Int) by omega)]
  · intro i hneg hpos
    refine ⟨by omega, ?_⟩
    rw [atIdx, if_pos hneg, if_pos hpos]
  · intro i hneg hc
    rw [atIdx, if_pos hneg, if_neg (show ¬ 0 ≤ (v.size_ : Int) + i by omega)]

/-- C6 witness: instantiates `c6_at_checked` at the buffer `[5, 10, 15]`. -/
theorem c6_at_checked_witness :
    (∀ i : Int, 0 ≤ i → i < (vec3.size_ : Int) →
      i.toNat < vec3.arr_.length ∧ atIdx vec3 i = vec3.arr_[i.toNat]?) ∧
    (∀ i : Int, 0 ≤ i → (vec3.size_ : Int) ≤ i → atIdx vec3 i = none) ∧
    (∀ i : Int, i < 0 → 0 ≤ (vec3.size_ : Int) + i →
      ((vec3.size_ : Int) + i).toNat < vec3.arr_.length ∧
      atIdx vec3 i = vec3.arr_[((vec3.size_ : Int) + i).toNat]?) ∧
    (∀ i : Int, i < 0 → (vec3.size_ : Int) + i < 0 → atIdx vec3 i = none) ∧
    atIdx vec3 (-1) = some 15 ∧ atIdx vec3 (-2) = some 10 ∧
    atIdx vec3 (-3) = some 5 ∧ atIdx vec3 (-4) = none :=
  c6_at_checked vec3 (by decide)

/-- C7: `AppendRange(other, start, endExclusive)` fails exactly when
`start >= endExclusive` or `endExclusive > other.length` — the check is the
first statement of the source, before any mutation, so on failure the
destination is untouched — and on success it appends precisely
`other[start, endExclusive)` after the existing elements, which are
unchanged, increasing the length by `endExclusive - start` and keeping the
state well formed.  (Stated for well-formed destinations of capacity at
least 2; with capacity 0 or 1 and a shortfall the source's grow loop would
never terminate.) -/
theorem c7_append_range (v o : Vec) (ei si : Nat)
    (hwf : WF v) (h2 : 2 ≤ v.len_) (ho : o.size_ ≤ o.arr_.length) :
    (appendRange v o ei si = none ↔ (si ≥ ei ∨ ei > o.size_)) ∧
    ∀ w, appendRange v o ei si = some w →
      w.size_ = v.size_ + (ei - si) ∧
      (∀ i, i < v.size_ → w.arr_[i]? = v.arr_[i]?) ∧
      (∀ j, j < ei - si → w.arr_[v.size_ + j]? = o.arr_[si + j]?) ∧
      w.size_ ≤ w.len_ ∧ w.arr_.length = w.len_ := by
  constructor
  · by_cases hc : si ≥ ei ∨ ei > o.size_
    · rw [appendRange, if_pos hc]
      simp [hc]
    · rw [appendRange, if_neg hc]
      simp [hc]
  · intro w hw
    by_cases hc : si ≥ ei ∨ ei > o.size_
    · rw [appendRange, if_pos hc] at hw
      exact absurd hw (by simp)
    · rw [appendRange, if_neg hc] at hw
      obtain ⟨r1, r2, r3, r4, r5⟩ :=
        growUntil_spec (ei - si) (ei - si + 1) v hwf h2 (by omega)
      obtain ⟨rsl, ral⟩ := r1
      set g := growUntil (ei - si) (ei - si + 1) v with hg
      set xs : List Int := (o.arr_.drop si).take (ei - si) with hxs
      have hxlen : xs.length = ei - si := by
        rw [hxs, List.length_take, List.length_drop]
        omega
      have hw' : w =
          { arr_ := writeAt g.arr_ g.size_ xs
            size_ := g.size_ + (ei - si)
            len_ := g.len_
            minlen_ := g.minlen_ } := (Option.some.inj hw).symm
      have hwa : w.arr_ = writeAt g.arr_ g.size_ xs := by rw [hw']
      have hws : w.size_ = g.size_ + (ei - si) := by rw [hw']
      have hwl : w.len_ = g.len_ := by rw [hw']
      refine ⟨by rw [hws, r3], ?_, ?_, ?_, ?_⟩
      · intro i hi
        rw [hwa, writeAt_keep g.arr_ xs g.size_ i (by omega) (by omega)]
        exact r5 i hi
      · intro j hj
        have hb : v.size_ + j < g.arr_.length := by omega
        rw [hwa, writeAt_write g.arr_ xs g.size_ (v.size_ + j) hb (by omega)
          (by omega)]
        have hjj : v.size_ + j - g.size_ = j := by omega
        rw [hjj, hxs, List.getElem?_take, if_pos hj, List.getElem?_drop]
      · rw [hws, hwl]
        omega
      · rw [hwa, hwl, writeAt_length]
        exact ral


/-- C7 witness: instantiates `c7_append_range` at the destination `[5, 10]`
and the source `[5, 10, 15]` with the range `[1, 3)`. -/
theorem c7_append_range_witness :
    (appendRange buf510 vec3 3 1 = none ↔ (1 ≥ 3 ∨ 3 > vec3.size_)) ∧
    ∀ w, appendRange buf510 vec3 3 1 = some w →
      w.size_ = buf510.size_ + (3 - 1) ∧
      (∀ i, i < buf510.size_ → w.arr_[i]? = buf510.arr_[i]?) ∧
      (∀ j, j < 3 - 1 → w.arr_[buf510.size_ + j]? = vec3.arr_[1 + j]?) ∧
      w.size_ ≤ w.len_ ∧ w.arr_.length = w.len_ :=
  c7_append_range buf510 vec3 3 1 (by decide) (by decide) (by decide)

end cxstructs
